import Mathlib

/-!
Verification of the PyGit storage layer (`src/main.py`): the object model and
its framing/hash scheme, the content-addressable object store, the staging
index, the index-to-tree builder and the garbage collector.

Byte sequences are modelled as `List Nat`.  Python strings are modelled as
Lean `String`; `str.encode()` is modelled at the code-point level
(`Char.toNat`), which agrees with UTF-8 byte-for-byte on the ASCII data the
program manipulates, and in particular the NUL byte and the space byte occur
in the encoding exactly where the NUL and space characters occur in the
string.

External collaborators of the source (the `hashlib.sha1` hex digest, the
`zlib` compressor and its inverse, and `json` parsing for the index file) are
not code of this repository; they are passed in as explicit function
parameters, so every theorem quantifies over them (with the documented
round-trip law as a hypothesis where it matters).
-/

/-- A byte sequence (each entry intended to be `< 256`). -/
abbrev Bytes := List Nat

/-- The external collaborators used by `src/main.py`:
`hashlib.sha1(...).hexdigest()` and `zlib.compress` / `zlib.decompress`. -/
structure ExtLib where
  sha1 : Bytes → String
  compress : Bytes → Bytes
  decompress : Bytes → Bytes

/-- `str.encode()` at code-point level (agrees with UTF-8 on ASCII). -/
def strBytes (s : String) : Bytes := s.data.map Char.toNat

/-- `bytes.decode()` at code-point level (inverse of `strBytes`). -/
def bytesToStr (b : Bytes) : String := String.mk (b.map Char.ofNat)

/-- Decimal digits, most significant first, with structural fuel (the fuel
`n + 1` always exceeds the digit count, so it never runs out). -/
def natDecAux : Nat → Nat → Bytes
  | 0, _ => []
  | fuel + 1, n =>
    if n < 10 then [48 + n]
    else natDecAux fuel (n / 10) ++ [48 + n % 10]

/-- Decimal digits of a natural number as ASCII bytes, most significant
first; models how a Python f-string renders `len(content)`. -/
def natDecBytes (n : Nat) : Bytes := natDecAux (n + 1) n

/-- The canonical framing `f"{type} {len(content)}\0".encode() + content`
(`GitObject.hash` / `GitObject.serialize`, src/main.py lines 19 and 23). -/
def frameBytes (t : String) (c : Bytes) : Bytes :=
  strBytes t ++ [32] ++ natDecBytes c.length ++ [0] ++ c

/-- The Python exceptions that matter to the claims.  `src/main.py` itself
raises only built-in `TypeError` / `ValueError` (and `FileNotFoundError`,
unmodelled); `CorruptObject` and `InvalidPath` come from the spec's error
taxonomy and are never constructed by the translated code. -/
inductive PyError where
  | typeError
  | valueError
  | corruptObject
  | invalidPath
  | objectNotFound
deriving DecidableEq

/-- A tree entry `(mode, name, obj_hash)`. -/
abbrev TreeEntry := String × String × String

/-- A dynamically-typed Python value stored in `GitObject.content`.  The
source's `Tree.__init__` (line 48) passes the raw `entries` list — not the
serialized bytes computed on line 47 — to `GitObject.__init__`, so `content`
really can hold a list of entry triples at run time. -/
inductive PyVal where
  | bytes (b : Bytes)
  | entryList (l : List TreeEntry)
deriving DecidableEq

/-- `GitObject` (src/main.py lines 12-35): a `type` tag and a `content`. -/
structure GitObject where
  type : String
  content : PyVal
deriving DecidableEq

/-- `GitObject.hash` (lines 17-20): sha1 of the framed content.  When
`content` is the raw entries list (a mis-constructed `Tree`), the Python
expression `header + self.content` adds `bytes` to `list` and raises
`TypeError`. -/
def objHash (e : ExtLib) (o : GitObject) : Except PyError String :=
  match o.content with
  | .bytes c => .ok (e.sha1 (frameBytes o.type c))
  | .entryList _ => .error .typeError

/-- `GitObject.serialize` (lines 22-24): zlib-compress the framed content;
same `TypeError` as `objHash` when `content` is an entries list. -/
def objSerialize (e : ExtLib) (o : GitObject) : Except PyError Bytes :=
  match o.content with
  | .bytes c => .ok (e.compress (frameBytes o.type c))
  | .entryList _ => .error .typeError

/-- Python `str.split(sep)` for a single-character separator, at the level
of character lists: `n` separators yield `n + 1` (possibly empty) parts. -/
def splitChar (sep : Nat) : Bytes → List Bytes
  | [] => [[]]
  | c :: cs =>
    let r := splitChar sep cs
    if c = sep then [] :: r
    else
      match r with
      | p :: ps => (c :: p) :: ps
      | [] => [[c]]

/-- `GitObject.deserialize` after decompression (lines 27-35): find the first
NUL (`bytes.find` returns `-1` when absent, so the header slice
`decompressed[:null_index]` is then everything but the last byte and the
content slice `decompressed[null_index+1:]` is the whole input); decode the
header and split it on spaces; `obj_type, _ = header.split(" ")` raises
`ValueError` unless there are exactly two parts.  The declared length is
bound to `_` and never checked, and no `CorruptObject` is ever raised. -/
def deserializeBytes (d : Bytes) : Except PyError GitObject :=
  let headerBytes : Bytes :=
    match d.findIdx? (· == 0) with
    | none => d.dropLast
    | some i => d.take i
  let content : Bytes :=
    match d.findIdx? (· == 0) with
    | none => d
    | some i => d.drop (i + 1)
  match splitChar 32 headerBytes with
  | [a, _] => .ok ⟨bytesToStr a, .bytes content⟩
  | _ => .error .valueError

/-- `GitObject.deserialize` (lines 27-35): decompress, then parse. -/
def deserialize (e : ExtLib) (data : Bytes) : Except PyError GitObject :=
  deserializeBytes (e.decompress data)

/-- A hexadecimal digit character's value, or `none` (helper for
`bytes.fromhex`). -/
def hexDigit (c : Char) : Option Nat :=
  let n := c.toNat
  if 48 ≤ n ∧ n ≤ 57 then some (n - 48)
  else if 97 ≤ n ∧ n ≤ 102 then some (n - 87)
  else if 65 ≤ n ∧ n ≤ 70 then some (n - 55)
  else none

/-- `bytes.fromhex(s)` on the character list of `s`: consume hex-digit pairs;
an odd count or a non-hex character raises `ValueError`.  (CPython also skips
ASCII spaces between pairs; the digests this program produces contain none,
so that allowance is not modelled.) -/
def fromHexChars : List Char → Except PyError Bytes
  | [] => .ok []
  | [_] => .error .valueError
  | a :: b :: rest =>
    match hexDigit a, hexDigit b with
    | some x, some y => do
      let r ← fromHexChars rest
      .ok ((16 * x + y) :: r)
    | _, _ => .error .valueError

/-- Python `<` on strings, character-list level: lexicographic comparison by
code point. -/
def lexLtChars : List Char → List Char → Bool
  | [], [] => false
  | [], _ :: _ => true
  | _ :: _, [] => false
  | a :: as, b :: bs =>
    if a.toNat < b.toNat then true
    else if b.toNat < a.toNat then false
    else lexLtChars as bs

/-- Python `<` on strings: lexicographic by code point. -/
def strLt (a b : String) : Bool := lexLtChars a.data b.data

/-- Python `<` on `(mode, name, obj_hash)` triples: lexicographic comparison
of the component strings. -/
def entryLtB (a b : TreeEntry) : Bool :=
  if strLt a.1 b.1 then true
  else if strLt b.1 a.1 then false
  else if strLt a.2.1 b.2.1 then true
  else if strLt b.2.1 a.2.1 then false
  else strLt a.2.2 b.2.2

/-- Insert into a list sorted ascending by `entryLtB`. -/
def insertEntry (a : TreeEntry) : List TreeEntry → List TreeEntry
  | [] => [a]
  | b :: bs => if entryLtB b a then b :: insertEntry a bs else a :: b :: bs

/-- Python's `sorted(entries)`: ascending by the tuple order.  (Equal keys
are identical triples, so stability is not observable.) -/
def sortEntries (l : List TreeEntry) : List TreeEntry := l.foldr insertEntry []

/-- One iteration of the `_serialize_entries` loop body (lines 58-60):
`content += f"{mode} {name}\0".encode(); content += bytes.fromhex(obj_hash)`. -/
def serStep (acc : Bytes) (ent : TreeEntry) : Except PyError Bytes := do
  let hb ← fromHexChars ent.2.2.data
  .ok (acc ++ strBytes (ent.1 ++ " " ++ ent.2.1) ++ [0] ++ hb)

/-- `Tree._serialize_entries` (lines 54-62): for each entry of the *sorted*
list emit `f"{mode} {name}\0".encode() + bytes.fromhex(obj_hash)`. -/
def serializeEntries (l : List TreeEntry) : Except PyError Bytes :=
  (sortEntries l).foldlM serStep []

/-- The run-time state of a `Tree` instance (lines 44-62). -/
structure PyTree where
  entries : List TreeEntry
  content : PyVal
deriving DecidableEq

/-- `Tree.__init__(entries)` (lines 45-48): line 46 sets `self.entries`
(with `entries or []`), line 47 *computes* `self._serialize_entries()` — so a
bad hex digest raises `ValueError` here — but line 48 then calls
`super().__init__("tree", entries)`, storing the raw entries list as
`content` and discarding the computed bytes. -/
def treeInit (entries : List TreeEntry) : Except PyError PyTree := do
  let _ ← serializeEntries entries
  .ok ⟨entries, .entryList entries⟩

/-- A call `Tree()` with no argument, as written on lines 66, 283 and 310:
`Tree.__init__` declares `entries` as a required positional parameter (line
45 gives it no default), so Python raises
`TypeError: __init__() missing 1 required positional argument`. -/
def treeNoArgs : Except PyError PyTree := .error .typeError

/-- `Tree.add_entry` (lines 50-52): append the entry and recompute
`self.content` from `_serialize_entries` (this *does* store bytes, repairing
the constructor's slip). -/
def addEntry (t : PyTree) (e : TreeEntry) : Except PyError PyTree := do
  let entries := t.entries ++ [e]
  let b ← serializeEntries entries
  .ok ⟨entries, .bytes b⟩

/-- The `GitObject` view of a `Tree` instance (its inherited fields). -/
def treeObj (t : PyTree) : GitObject := ⟨"tree", t.content⟩

/-- Building a `Tree` "from a list of entries, in order" the way
`create_tree_recursive` does: start from an empty tree and `add_entry` each
entry in turn.  (Starting from `Tree([])` rather than the crashing `Tree()`
so that construction itself succeeds.) -/
def buildTree (l : List TreeEntry) : Except PyError PyTree := do
  let t ← treeInit []
  l.foldlM addEntry t

/-- The on-disk object store `.git/objects`: a list of bucket directories
(`objects/<name>/`), each holding files `(name, bytes)`.  `store_object`
names buckets with the first two hex digits of a digest and files with the
rest. -/
abbrev Store := List (String × List (String × Bytes))

/-- The staging index: the persisted path → digest mapping.  A Python dict
is modelled as an association list in insertion order with unique keys
maintained by `dictSet`. -/
abbrev Index := List (String × String)

/-- Python `d[k] = v` on a dict: overwrite in place (keeping the key's
original position) or append a new key. -/
def dictSet (k : String) (v : α) : List (String × α) → List (String × α)
  | [] => [(k, v)]
  | (k', v') :: rest =>
    if k' = k then (k', v) :: rest else (k', v') :: dictSet k v rest

/-- Python `d.get(k)` / `k in d` on a dict modelled as an association list. -/
def dictGet (k : String) : List (String × α) → Option α
  | [] => none
  | (k', v) :: rest => if k' = k then some v else dictGet k rest

/-- First two characters of a digest string (`obj_hash[:2]`). -/
def digestBucket (h : String) : String := String.mk (h.data.take 2)

/-- Remaining characters of a digest string (`obj_hash[2:]`). -/
def digestFile (h : String) : String := String.mk (h.data.drop 2)

/-- `obj_file.exists()`: is there a file `f` inside a bucket named `b`? -/
def objPathExists (store : Store) (b f : String) : Bool :=
  store.any (fun bk => bk.1 = b && bk.2.any (fun fc => fc.1 = f))

/-- `obj_dir.mkdir(exist_ok=True)` followed by `obj_file.write_bytes(...)`:
add the file to the bucket, creating the bucket if absent. -/
def bucketWrite (b f : String) (c : Bytes) : Store → Store
  | [] => [(b, [(f, c)])]
  | (b', files) :: rest =>
    if b' = b then (b', files ++ [(f, c)]) :: rest
    else (b', files) :: bucketWrite b f c rest

/-- `Repositry.store_object` (lines 175-184): hash the object; if no file
exists at `objects/<hash[:2]>/<hash[2:]>`, write the serialized bytes there;
return the hash either way. -/
def storeObject (e : ExtLib) (store : Store) (o : GitObject) :
    Except PyError (Store × String) := do
  let h ← objHash e o
  let b := digestBucket h
  let f := digestFile h
  if objPathExists store b f then
    .ok (store, h)
  else do
    let ser ← objSerialize e o
    .ok (bucketWrite b f ser store, h)

/-- All `(bucket, file, bytes)` triples of a store; the stored entry for
digest `h` is the one with `bucket = h[:2]` and `file = h[2:]`. -/
def storeEntries (store : Store) : List (String × String × Bytes) :=
  store.flatMap (fun bk => bk.2.map (fun fc => (bk.1, fc.1, fc.2)))

/-- `exists`-style check for a digest: is there a file at the path the store
derives from the digest? -/
def digestExists (store : Store) (h : String) : Bool :=
  objPathExists store (digestBucket h) (digestFile h)

/-- How many files the store holds at the path derived from digest `h`. -/
def entryCount (store : Store) (h : String) : Nat :=
  ((storeEntries store).filter
    (fun ent => ent.1 = digestBucket h && ent.2.1 = digestFile h)).length

/-- `Repositry.gc` (lines 346-366): for every directory of `.git/objects`
whose name has exactly two characters, delete each file whose
`dirname + filename` is not a value of the index, then remove the directory
if it is left empty.  Other directories are not touched. -/
def gcRun (index : Index) : Store → Store
  | [] => []
  | (b, files) :: rest =>
    if b.length ≠ 2 then (b, files) :: gcRun index rest
    else
      let files' := files.filter (fun fc => decide ((b ++ fc.1) ∈ index.map Prod.snd))
      if files' = [] then gcRun index rest
      else (b, files') :: gcRun index rest

/-- `Repositry.load_index` (lines 186-193): empty dict when the file does
not exist; `json.loads` wrapped in a bare `except:` that turns *any* parse
failure into the empty dict; otherwise the parsed mapping.  `json.loads` is
an external collaborator, passed in as `parse`. -/
def loadIndex (parse : String → Except PyError Index) :
    Option String → Index
  | none => []
  | some text =>
    match parse text with
    | .ok m => m
    | .error _ => []

/-- `Repositry.add_file` (lines 195-222), after the file's bytes have been
read: store a blob, set `index[path]` to its digest, save the index, run
`gc`.  The saved index round-trips through json (spec §6), so the persisted
state is carried as the mapping itself. -/
def addFile (e : ExtLib) (store : Store) (index : Index) (path : String)
    (content : Bytes) : Except PyError (Store × Index) := do
  let (s1, h) ← storeObject e store ⟨"blob", .bytes content⟩
  let index' := dictSet path h index
  .ok (gcRun index' s1, index')

/-- The `".git" in file_path.parts or ".vscode" in file_path.parts` filter of
`add_directory` (line 244), on a repo-relative path. -/
def ignoredPath (p : String) : Bool :=
  (splitChar 47 (strBytes p)).any
    (fun seg => seg = strBytes ".git" || seg = strBytes ".vscode")

/-- One iteration of the `add_directory` traversal loop (lines 242-255):
skip ignored components, otherwise store a blob and update the index. -/
def addDirStep (e : ExtLib) (acc : Store × Index) (pc : String × Bytes) :
    Except PyError (Store × Index) :=
  if ignoredPath pc.1 then .ok acc
  else do
    let (s1, h) ← storeObject e acc.1 ⟨"blob", .bytes pc.2⟩
    .ok (s1, dictSet pc.1 h acc.2)

/-- `Repositry.add_directory` (lines 224-260), after traversal: for each
regular file found (given here as repo-relative path plus bytes), run
`addDirStep`; then save the index once and run `gc`. -/
def addDirectory (e : ExtLib) (store : Store) (index : Index)
    (files : List (String × Bytes)) : Except PyError (Store × Index) := do
  let (s', index') ← files.foldlM (addDirStep e) (store, index)
  .ok (gcRun index' s', index')

/-- The dict-of-dicts the builder nests under `dirs` (lines 286-307): a
value is either a blob digest (a Python `str`) or a sub-dictionary. -/
inductive DirTree where
  | leaf (digest : String) : DirTree
  | node (children : List (String × DirTree)) : DirTree

/-- The inner loop of the partition (lines 300-307): walk `parts[1:-1]`
creating empty dicts as needed, then `curr[parts[-1]] = blob_hash`.  When
the walk (or the final assignment) lands on a `str` instead of a dict,
Python raises `TypeError` (`'str'` supports neither item assignment nor
string indexing). -/
def setPath (d : List (String × DirTree)) (mid : List String)
    (last digest : String) : Except PyError (List (String × DirTree)) :=
  match mid with
  | [] => .ok (dictSet last (.leaf digest) d)
  | p :: rest =>
    match dictGet p d with
    | none => do
      let sub ← setPath [] rest last digest
      .ok (dictSet p (.node sub) d)
    | some (.node sub) => do
      let sub' ← setPath sub rest last digest
      .ok (dictSet p (.node sub') d)
    | some (.leaf _) => .error .typeError

/-- One iteration of the partition loop (lines 289-307): split the path on
`"/"`; a single part goes to `files`, otherwise thread the tail through the
nested dict under `dirs[parts[0]]`. -/
def processEntry (acc : List (String × String) × List (String × DirTree))
    (pathDigest : String × String) :
    Except PyError (List (String × String) × List (String × DirTree)) :=
  let parts := (splitChar 47 (strBytes pathDigest.1)).map bytesToStr
  match parts with
  | [] => .ok acc
  | [single] => .ok (dictSet single pathDigest.2 acc.1, acc.2)
  | p0 :: rest =>
    match dictGet p0 acc.2 with
    | some (.leaf _) => .error .typeError
    | some (.node sub) => do
      let sub' ← setPath sub rest.dropLast (rest.getLastD "") pathDigest.2
      .ok (acc.1, dictSet p0 (.node sub') acc.2)
    | none => do
      let sub ← setPath [] rest.dropLast (rest.getLastD "") pathDigest.2
      .ok (acc.1, dictSet p0 (.node sub) acc.2)

/-- The loop `for dir_name, dir_contents in dirs:` (lines 323-324).
Iterating a dict yields its *keys*, so each 'row' is a key string; tuple
unpacking a string succeeds only when it has exactly two characters (each
becoming a one-character string), and raises `ValueError` otherwise.  On
success the code stores `root_entries[key[0]] = key[1]` — a stray str
entry, not the directory's contents. -/
def rootDirsLoop (re : List (String × DirTree)) :
    List String → Except PyError (List (String × DirTree))
  | [] => .ok re
  | key :: rest =>
    match key.data with
    | [c0, c1] =>
      rootDirsLoop (dictSet (String.mk [c0]) (.leaf (String.mk [c1])) re) rest
    | _ => .error .valueError

/-- The body of `create_tree_recursive` (lines 309-320) *after* its first
statement: fold over the dict's items, `add_entry`-ing file leaves with mode
`"100644"` and recursively built subtrees with mode `"40000"`, then
`store_object` the tree.  Each recursive call begins with `Tree()`
(`treeNoArgs`), which raises `TypeError`, so no call ever gets past its
first statement; the remainder is translated nonetheless. -/
def treeRecGo (e : ExtLib) (store : Store) (t : PyTree) :
    List (String × DirTree) → Except PyError (Store × PyTree)
  | [] => .ok (store, t)
  | (name, .leaf digest) :: rest => do
    let t' ← addEntry t ("100644", name, digest)
    treeRecGo e store t' rest
  | (name, .node sub) :: rest => do
    let t0 ← treeNoArgs
    let (s', subTree) ← treeRecGo e store t0 sub
    let (s'', subHash) ← storeObject e s' (treeObj subTree)
    let t' ← addEntry t ("40000", name, subHash)
    treeRecGo e s'' t' rest

/-- `create_tree_recursive(entries_dict)` (lines 309-320): `tree = Tree()`
raises `TypeError` immediately; the rest of the body is `treeRecGo` followed
by `store_object`. -/
def createTreeRecursive (e : ExtLib) (store : Store)
    (d : List (String × DirTree)) : Except PyError (Store × String) := do
  let t ← treeNoArgs
  let (s', t') ← treeRecGo e store t d
  storeObject e s' (treeObj t')

/-- `Repositry.create_tree_from_index` (lines 280-326).  An empty index runs
`Tree()` (`TypeError`).  Otherwise: partition the index into root files and
the nested `dirs` mapping, copy `files` into `root_entries`, run the
mis-written `for dir_name, dir_contents in dirs:` loop, and hand the result
to `create_tree_recursive`. -/
def createTreeFromIndex (e : ExtLib) (store : Store) (index : Index) :
    Except PyError (Store × String) :=
  if index.isEmpty then do
    let t ← treeNoArgs
    storeObject e store (treeObj t)
  else do
    let (files, dirs) ← index.foldlM processEntry ([], [])
    let re0 : List (String × DirTree) :=
      files.map (fun kv => (kv.1, DirTree.leaf kv.2))
    let re ← rootDirsLoop re0 (dirs.map Prod.fst)
    createTreeRecursive e store re

/-- A concrete instantiation of the external collaborators, used by closed
counterexamples and witnesses: a constant 40-hex-character digest and the
identity compressor (`decompress (compress x) = x` holds trivially). -/
def extIdC : ExtLib :=
  ⟨fun _ => "aaaaaaaaaaaaaaaaaaaaaaaaaaaaaaaaaaaaaaaa", id, id⟩

theorem natDecAux_digits (fuel n : Nat) :
    ∀ d ∈ natDecAux fuel n, 48 ≤ d ∧ d < 58 := by
  induction fuel generalizing n with
  | zero => simp [natDecAux]
  | succ fuel ih =>
    rw [natDecAux]
    by_cases h : n < 10
    · simp only [h, if_pos]
      intro d hd
      simp only [List.mem_singleton] at hd
      omega
    · simp only [h, if_neg, not_false_iff, List.mem_append, List.mem_singleton]
      intro d hd
      rcases hd with hd | hd
      · exact ih (n / 10) d hd
      · have := Nat.mod_lt n (y := 10) (by omega)
        omega

theorem natDecBytes_digits (n : Nat) : ∀ d ∈ natDecBytes n, 48 ≤ d ∧ d < 58 :=
  natDecAux_digits (n + 1) n

/-- `Except.bind` of an error short-circuits. -/
theorem except_bind_error {e : PyError} (f : α → Except PyError β) :
    (Except.error e : Except PyError α).bind f = .error e := rfl

/-- C1: For every repository whose staging index equals
`{"a.txt": d1, "dir/b.txt": d2}`, `create_tree_from_index` does *not* return
the digest of a two-entry root Tree: it raises `ValueError`.  The loop
`for dir_name, dir_contents in dirs:` (line 323) iterates the *keys* of
`dirs` and tuple-unpacks the three-character string `"dir"`; even with that
repaired, `create_tree_recursive` opens with the crashing call `Tree()`. -/
theorem createTree_nested_index_raises (e : ExtLib) (store : Store)
    (d1 d2 : String) :
    createTreeFromIndex e store [("a.txt", d1), ("dir/b.txt", d2)] =
      .error .valueError := rfl

/-- C3: For every repository whose staging index is empty,
`create_tree_from_index` does *not* store and return the digest of an empty
Tree: its first action is `tree = Tree()`, and `Tree.__init__` declares
`entries` as a required positional argument, so Python raises `TypeError`. -/
theorem createTree_empty_index_raises (e : ExtLib) (store : Store) :
    createTreeFromIndex e store [] = .error .typeError := rfl

/-- C8 counterexample: for the staging index `{"dir/": "aa"}` — a path with
an empty (trailing) segment — the tree builder does not raise `InvalidPath`:
it accepts the path into the nested mapping (as an entry with empty name)
and then raises `ValueError` from the defective `for dir_name, dir_contents
in dirs:` loop. -/
theorem emptySegment_no_invalidPath_cex :
    createTreeFromIndex extIdC [] [("dir/", "aa")] = .error .valueError ∧
      PyError.valueError ≠ PyError.invalidPath := by
  exact ⟨rfl, by decide⟩

/-- C8 amended: a path with an empty segment (trailing slash `"dir/"` or
double slash `"a//b"`) is *not* rejected with `InvalidPath`; the partition
step silently records an empty-named key, and the builder call then fails
with `ValueError` raised by the unrelated defective iteration over the
top-level directory names (line 323). -/
theorem emptySegment_amended (e : ExtLib) (store : Store) (d : String) :
    createTreeFromIndex e store [("dir/", d)] = .error .valueError ∧
      createTreeFromIndex e store [("a//b", d)] = .error .valueError ∧
      PyError.valueError ≠ PyError.invalidPath :=
  ⟨rfl, rfl, by decide⟩

/-- C2 counterexample (for the final conjunct of the claim): no Tree object
can ever be "just built from a non-empty index", because
`create_tree_from_index` raises before storing anything — here on the
one-entry index `{"a.txt": "aa"}` it raises `TypeError` from the call
`Tree()` that opens `create_tree_recursive`. -/
theorem gc_no_tree_built_cex :
    createTreeFromIndex extIdC [] [("a.txt", "aa")] = .error .typeError := rfl

theorem strBytes_append (s t : String) :
    strBytes (s ++ t) = strBytes s ++ strBytes t := by
  simp [strBytes, String.data_append]

theorem bytesToStr_strBytes (s : String) : bytesToStr (strBytes s) = s := by
  simp only [bytesToStr, strBytes, List.map_map]
  have : (Char.ofNat ∘ Char.toNat) = id := by
    funext c
    exact Char.ofNat_toNat c
  rw [this, List.map_id]

theorem findIdx?_first_from (p : Nat → Bool) (l1 l2 : Bytes) (x : Nat)
    (h1 : ∀ a ∈ l1, p a = false) (hx : p x = true) :
    ∀ i, (l1 ++ x :: l2).findIdx? p i = some (l1.length + i) := by
  induction l1 with
  | nil =>
    intro i
    simp [hx]
  | cons a as ih =>
    intro i
    have ha : p a = false := h1 a (by simp)
    simp only [List.cons_append, List.findIdx?_cons, ha, Bool.false_eq_true,
      if_false, List.length_cons]
    rw [ih (fun b hb => h1 b (by simp [hb])) (i + 1)]
    congr 1
    omega

theorem findIdx?_first (p : Nat → Bool) (l1 l2 : Bytes) (x : Nat)
    (h1 : ∀ a ∈ l1, p a = false) (hx : p x = true) :
    (l1 ++ x :: l2).findIdx? p = some l1.length := by
  have := findIdx?_first_from p l1 l2 x h1 hx 0
  simpa using this

theorem splitChar_no_sep (sep : Nat) (l : Bytes) (h : ∀ a ∈ l, a ≠ sep) :
    splitChar sep l = [l] := by
  induction l with
  | nil => rfl
  | cons a as ih =>
    have ha : a ≠ sep := h a (by simp)
    rw [splitChar]
    simp only [ha, if_false]
    rw [ih (fun b hb => h b (by simp [hb]))]

theorem splitChar_append_sep (sep : Nat) (l1 l2 : Bytes)
    (h1 : ∀ a ∈ l1, a ≠ sep) :
    splitChar sep (l1 ++ sep :: l2) = l1 :: splitChar sep l2 := by
  induction l1 with
  | nil => simp [splitChar]
  | cons a as ih =>
    have ha : a ≠ sep := h1 a (by simp)
    rw [List.cons_append, splitChar]
    simp only [ha, if_false]
    rw [ih (fun b hb => h1 b (by simp [hb]))]

/-- Parsing the canonical framing recovers `(type, content)` whenever the
type string contains neither a space nor a NUL character. -/
theorem deserializeBytes_frameBytes (t : String) (c : Bytes)
    (ht : ∀ ch ∈ t.data, ch.toNat ≠ 32 ∧ ch.toNat ≠ 0) :
    deserializeBytes (frameBytes t c) = .ok ⟨t, .bytes c⟩ := by
  have hb32 : ∀ a ∈ strBytes t, a ≠ 32 := by
    intro a ha
    simp only [strBytes, List.mem_map] at ha
    obtain ⟨ch, hch, rfl⟩ := ha
    exact (ht ch hch).1
  have hb0 : ∀ a ∈ strBytes t, a ≠ 0 := by
    intro a ha
    simp only [strBytes, List.mem_map] at ha
    obtain ⟨ch, hch, rfl⟩ := ha
    exact (ht ch hch).2
  have hd0 : ∀ a ∈ natDecBytes c.length, a ≠ 0 := by
    intro a ha
    have := natDecBytes_digits c.length a ha
    omega
  have hd32 : ∀ a ∈ natDecBytes c.length, a ≠ 32 := by
    intro a ha
    have := natDecBytes_digits c.length a ha
    omega
  have hhdr0 : ∀ a ∈ strBytes t ++ 32 :: natDecBytes c.length, (a == 0) = false := by
    intro a ha
    rcases List.mem_append.mp ha with h | h
    · simpa using hb0 a h
    · rcases List.mem_cons.mp h with rfl | h
      · decide
      · simpa using hd0 a h
  have hshape : frameBytes t c =
      (strBytes t ++ 32 :: natDecBytes c.length) ++ 0 :: c := by
    simp [frameBytes, List.append_assoc]
  rw [hshape]
  have hfind := findIdx?_first (· == 0) (strBytes t ++ 32 :: natDecBytes c.length)
    c 0 hhdr0 (by decide)
  have htake : ((strBytes t ++ 32 :: natDecBytes c.length) ++ 0 :: c).take
      (strBytes t ++ 32 :: natDecBytes c.length).length =
      strBytes t ++ 32 :: natDecBytes c.length := List.take_left _ _
  have hdrop : ((strBytes t ++ 32 :: natDecBytes c.length) ++ 0 :: c).drop
      ((strBytes t ++ 32 :: natDecBytes c.length).length + 1) = c := by
    rw [show ((strBytes t ++ 32 :: natDecBytes c.length) ++ 0 :: c) =
        ((strBytes t ++ 32 :: natDecBytes c.length) ++ [0]) ++ c by
      simp [List.append_assoc]]
    exact List.drop_left' (by simp; omega)
  simp only [deserializeBytes, hfind, htake, hdrop]
  rw [splitChar_append_sep 32 (strBytes t) (natDecBytes c.length) hb32]
  rw [splitChar_no_sep 32 (natDecBytes c.length) hd32]
  simp [bytesToStr_strBytes]

/-- `deserialize` can never fail with `CorruptObject`: the source defines no
such exception and performs no such validation (its only failure is the
`ValueError` from unpacking `header.split(" ")`). -/
theorem deserializeBytes_ne_corrupt (d : Bytes) :
    deserializeBytes d ≠ .error .corruptObject := by
  simp only [deserializeBytes]
  split
  · simp
  · simp

/-- C4 counterexample: the round-trip fails for the type string `"a b"`
(which contains a space), even under a perfectly invertible compressor: the
header `"a b 0"` splits into three space-separated parts, so
`obj_type, _ = header.split(" ")` raises `ValueError` instead of returning
`("a b", b"")`. -/
theorem serialize_roundtrip_cex :
    objSerialize extIdC ⟨"a b", .bytes []⟩ =
        .ok (extIdC.compress (frameBytes "a b" [])) ∧
      extIdC.decompress (extIdC.compress (frameBytes "a b" [])) =
        frameBytes "a b" [] ∧
      deserialize extIdC (extIdC.compress (frameBytes "a b" [])) =
        .error .valueError :=
  ⟨rfl, rfl, rfl⟩

/-- C4 amended: for every invertible compressor and every `(type, content)`
whose type string contains neither a space nor a NUL character,
`deserialize (serialize (type, content)) = (type, content)`. -/
theorem serialize_roundtrip_amended (e : ExtLib)
    (hinv : ∀ x, e.decompress (e.compress x) = x)
    (t : String) (c : Bytes)
    (ht : ∀ ch ∈ t.data, ch.toNat ≠ 32 ∧ ch.toNat ≠ 0) :
    objSerialize e ⟨t, .bytes c⟩ = .ok (e.compress (frameBytes t c)) ∧
      deserialize e (e.compress (frameBytes t c)) = .ok ⟨t, .bytes c⟩ := by
  refine ⟨rfl, ?_⟩
  rw [deserialize, hinv]
  exact deserializeBytes_frameBytes t c ht

theorem serialize_roundtrip_amended_witness :
    objSerialize extIdC ⟨"blob", .bytes [1, 2, 3]⟩ =
        .ok (extIdC.compress (frameBytes "blob" [1, 2, 3])) ∧
      deserialize extIdC (extIdC.compress (frameBytes "blob" [1, 2, 3])) =
        .ok ⟨"blob", .bytes [1, 2, 3]⟩ :=
  serialize_roundtrip_amended extIdC (fun _ => rfl) "blob" [1, 2, 3] (by decide)

/-- C5 counterexample: on an input whose decompressed bytes `b"ab cd"`
contain no NUL separator, `deserialize` does not fail with `CorruptObject`
(or at all): it silently treats everything but the last byte as the header
and returns the *entire* input as content, yielding `("ab", b"ab cd")`. -/
theorem deserialize_corrupt_cex :
    (strBytes "ab cd").contains 0 = false ∧
      deserialize extIdC (strBytes "ab cd") =
        .ok ⟨"ab", .bytes (strBytes "ab cd")⟩ :=
  ⟨rfl, rfl⟩

/-- C5 amended: `deserialize` never raises `CorruptObject` on any input
under any decompressor.  A declared length that disagrees with the actual
byte count is accepted silently (`b"blob 5\0ab"` yields `("blob", b"ab")`),
and a header that does not split on spaces into exactly two tokens raises
the built-in `ValueError` (`b"a b c\0x"`). -/
theorem deserialize_no_validation :
    (∀ (e : ExtLib) (data : Bytes),
        deserialize e data ≠ .error .corruptObject) ∧
      deserialize extIdC (strBytes "blob 5" ++ [0] ++ strBytes "ab") =
        .ok ⟨"blob", .bytes (strBytes "ab")⟩ ∧
      deserialize extIdC (strBytes "a b c" ++ [0] ++ strBytes "x") =
        .error .valueError :=
  ⟨fun e data => deserializeBytes_ne_corrupt (e.decompress data), rfl, rfl⟩

theorem deserialize_no_validation_witness :
    deserialize extIdC (strBytes "junk") ≠ .error .corruptObject :=
  deserialize_no_validation.1 extIdC (strBytes "junk")

theorem lexLt_asymm : ∀ (a b : List Char),
    lexLtChars a b = true → lexLtChars b a = false
  | [], [], h => by simp [lexLtChars] at h
  | [], _ :: _, _ => by simp [lexLtChars]
  | _ :: _, [], h => by simp [lexLtChars] at h
  | a :: as, b :: bs, h => by
    rw [lexLtChars] at h ⊢
    by_cases h1 : a.toNat < b.toNat
    · rw [if_neg (by omega), if_pos h1]
    · rw [if_neg h1] at h
      by_cases h2 : b.toNat < a.toNat
      · rw [if_pos h2] at h
        cases h
      · rw [if_neg h2] at h
        rw [if_neg h2, if_neg h1]
        exact lexLt_asymm as bs h

theorem lexLt_eq_of_not : ∀ (a b : List Char),
    lexLtChars a b = false → lexLtChars b a = false → a = b
  | [], [], _, _ => rfl
  | [], _ :: _, h, _ => by simp [lexLtChars] at h
  | _ :: _, [], _, h => by simp [lexLtChars] at h
  | a :: as, b :: bs, hab, hba => by
    rw [lexLtChars] at hab hba
    by_cases h1 : a.toNat < b.toNat
    · rw [if_pos h1] at hab
      cases hab
    · by_cases h2 : b.toNat < a.toNat
      · rw [if_pos h2] at hba
        cases hba
      · rw [if_neg h1, if_neg h2] at hab
        rw [if_neg h2, if_neg h1] at hba
        have hn : a.toNat = b.toNat := by omega
        have hc : a = b := by
          have h' : Char.ofNat a.toNat = Char.ofNat b.toNat := by rw [hn]
          rwa [Char.ofNat_toNat, Char.ofNat_toNat] at h'
        rw [hc, lexLt_eq_of_not as bs hab hba]

theorem strLt_asymm (a b : String) (h : strLt a b = true) :
    strLt b a = false :=
  lexLt_asymm a.data b.data h

theorem strLt_eq_of_not (a b : String) (hab : strLt a b = false)
    (hba : strLt b a = false) : a = b :=
  String.ext (lexLt_eq_of_not a.data b.data hab hba)

theorem entryLtB_asymm (a b : TreeEntry) (h : entryLtB a b = true) :
    entryLtB b a = false := by
  unfold entryLtB at h ⊢
  by_cases h1 : strLt a.1 b.1 = true
  · rw [if_neg (by simp [strLt_asymm _ _ h1]), if_pos h1]
  · rw [if_neg h1] at h
    by_cases h1' : strLt b.1 a.1 = true
    · rw [if_pos h1'] at h
      cases h
    · rw [if_neg h1'] at h
      rw [if_neg h1', if_neg h1]
      by_cases h2 : strLt a.2.1 b.2.1 = true
      · rw [if_neg (by simp [strLt_asymm _ _ h2]), if_pos h2]
      · rw [if_neg h2] at h
        by_cases h2' : strLt b.2.1 a.2.1 = true
        · rw [if_pos h2'] at h
          cases h
        · rw [if_neg h2'] at h
          rw [if_neg h2', if_neg h2]
          exact strLt_asymm _ _ h

theorem entryLtB_eq_of_not (a b : TreeEntry) (hab : entryLtB a b = false)
    (hba : entryLtB b a = false) : a = b := by
  obtain ⟨a1, a2, a3⟩ := a
  obtain ⟨b1, b2, b3⟩ := b
  unfold entryLtB at hab hba
  simp only at hab hba
  by_cases h1 : strLt a1 b1 = true
  · rw [if_pos h1] at hab
    cases hab
  · by_cases h1' : strLt b1 a1 = true
    · rw [if_pos h1'] at hba
      cases hba
    · rw [if_neg h1, if_neg h1'] at hab
      rw [if_neg h1', if_neg h1] at hba
      by_cases h2 : strLt a2 b2 = true
      · rw [if_pos h2] at hab
        cases hab
      · by_cases h2' : strLt b2 a2 = true
        · rw [if_pos h2'] at hba
          cases hba
        · rw [if_neg h2, if_neg h2'] at hab
          rw [if_neg h2', if_neg h2] at hba
          have e1 : a1 = b1 :=
            strLt_eq_of_not a1 b1 (by simpa using h1) (by simpa using h1')
          have e2 : a2 = b2 :=
            strLt_eq_of_not a2 b2 (by simpa using h2) (by simpa using h2')
          have e3 : a3 = b3 := strLt_eq_of_not a3 b3 hab hba
          rw [e1, e2, e3]

theorem sortEntries_pair (A B : TreeEntry) :
    sortEntries [A, B] = sortEntries [B, A] := by
  show insertEntry A (insertEntry B []) = insertEntry B (insertEntry A [])
  show insertEntry A [B] = insertEntry B [A]
  unfold insertEntry
  cases hBA : entryLtB B A with
  | true =>
    have hAB : entryLtB A B = false := entryLtB_asymm B A hBA
    simp [hBA, hAB, insertEntry]
  | false =>
    cases hAB : entryLtB A B with
    | true => simp [hBA, hAB, insertEntry]
    | false =>
      have : A = B := entryLtB_eq_of_not A B hAB hBA
      subst this
      simp [hBA]

theorem serializeEntries_pair (A B : TreeEntry) :
    serializeEntries [A, B] = serializeEntries [B, A] := by
  unfold serializeEntries
  rw [sortEntries_pair]

theorem except_ok_bind (x : α) (f : α → Except PyError β) :
    (Except.ok x : Except PyError α) >>= f = f x := rfl

theorem except_err_bind (er : PyError) (f : α → Except PyError β) :
    (Except.error er : Except PyError α) >>= f = .error er := rfl

theorem fromHexChars_err : ∀ (l : List Char) (er : PyError),
    fromHexChars l = .error er → er = .valueError
  | [], er, h => by simp [fromHexChars] at h
  | [c], er, h => by
    rw [fromHexChars] at h
    exact (Except.error.inj h).symm
  | a :: b :: rest, er, h => by
    rw [fromHexChars] at h
    rcases ha : hexDigit a with _ | x <;> rcases hb : hexDigit b with _ | y <;>
      simp only [ha, hb] at h
    · simp_all
    · simp_all
    · simp_all
    · cases hr : fromHexChars rest with
      | error er' =>
        rw [hr, except_err_bind] at h
        have : er' = er := Except.error.inj h
        subst this
        exact fromHexChars_err rest er' hr
      | ok r =>
        rw [hr, except_ok_bind] at h
        cases h

theorem mem_insertEntry (x a : TreeEntry) (l : List TreeEntry) :
    x ∈ insertEntry a l ↔ x = a ∨ x ∈ l := by
  induction l with
  | nil => simp [insertEntry]
  | cons b bs ih =>
    unfold insertEntry
    split
    all_goals simp only [List.mem_cons, ih]
    all_goals tauto

theorem mem_sortEntries (x : TreeEntry) (l : List TreeEntry) :
    x ∈ sortEntries l ↔ x ∈ l := by
  induction l with
  | nil => simp [sortEntries]
  | cons a as ih =>
    show x ∈ insertEntry a (sortEntries as) ↔ _
    rw [mem_insertEntry, ih, List.mem_cons]

theorem serFold_err : ∀ (l : List TreeEntry) (acc : Bytes),
    (∃ a ∈ l, ∃ er, fromHexChars a.2.2.data = .error er) →
    l.foldlM serStep acc = .error .valueError := by
  intro l
  induction l with
  | nil =>
    intro acc h
    simp at h
  | cons b bs ih =>
    intro acc h
    rw [List.foldlM_cons]
    cases hb : fromHexChars b.2.2.data with
    | error er =>
      have hstep : serStep acc b = .error er := by
        simp [serStep, hb, except_err_bind]
      rw [hstep, except_err_bind, fromHexChars_err _ _ hb]
    | ok hbv =>
      have hstep : serStep acc b =
          .ok (acc ++ strBytes (b.1 ++ " " ++ b.2.1) ++ [0] ++ hbv) := by
        simp [serStep, hb, except_ok_bind]
      rw [hstep, except_ok_bind]
      apply ih
      obtain ⟨a, ha, er, her⟩ := h
      rcases List.mem_cons.mp ha with rfl | ha'
      · rw [her] at hb
        cases hb
      · exact ⟨a, ha', er, her⟩

theorem serFold_ok : ∀ (l : List TreeEntry) (acc : Bytes),
    (∀ a ∈ l, ∃ hb, fromHexChars a.2.2.data = .ok hb) →
    ∃ r, l.foldlM serStep acc = .ok r := by
  intro l
  induction l with
  | nil =>
    intro acc _
    exact ⟨acc, rfl⟩
  | cons b bs ih =>
    intro acc h
    obtain ⟨hbv, hb⟩ := h b (by simp)
    rw [List.foldlM_cons]
    have hstep : serStep acc b =
        .ok (acc ++ strBytes (b.1 ++ " " ++ b.2.1) ++ [0] ++ hbv) := by
      simp [serStep, hb, except_ok_bind]
    rw [hstep, except_ok_bind]
    exact ih _ (fun a ha => h a (by simp [ha]))

theorem serializeEntries_err_of_bad (l : List TreeEntry) (a : TreeEntry)
    (ha : a ∈ l) (er : PyError) (hbad : fromHexChars a.2.2.data = .error er) :
    serializeEntries l = .error .valueError :=
  serFold_err _ [] ⟨a, (mem_sortEntries a l).mpr ha, er, hbad⟩

theorem serializeEntries_ok_of_good (l : List TreeEntry)
    (h : ∀ a ∈ l, ∃ hb, fromHexChars a.2.2.data = .ok hb) :
    ∃ r, serializeEntries l = .ok r :=
  serFold_ok _ [] (fun a ha => h a ((mem_sortEntries a l).mp ha))

theorem except_bind_ok (x : α) (f : α → Except PyError β) :
    (Except.ok x : Except PyError α).bind f = f x := rfl

theorem buildTree_pair (A B : TreeEntry) :
    buildTree [A, B] =
      (serializeEntries [A]).bind (fun _ =>
        (serializeEntries [A, B]).bind (fun s => .ok ⟨[A, B], .bytes s⟩)) := by
  have h0 : serializeEntries [] = .ok [] := rfl
  cases hsA : serializeEntries [A] with
  | error e1 =>
    simp [buildTree, treeInit, addEntry, h0, hsA, except_ok_bind,
      except_err_bind, Except.bind]
  | ok b1 =>
    cases hsAB : serializeEntries [A, B] with
    | error e2 =>
      simp [buildTree, treeInit, addEntry, h0, hsA, hsAB, except_ok_bind,
        except_err_bind, Except.bind]
    | ok s =>
      simp [buildTree, treeInit, addEntry, h0, hsA, hsAB, except_ok_bind,
        except_err_bind, Except.bind]

/-- The two `add_entry` construction orders either both fail with the same
`ValueError` (a digest that is not valid hex) or both succeed with the same
serialized content. -/
theorem buildTree_pair_rel (A B : TreeEntry) :
    (buildTree [A, B] = .error .valueError ∧
      buildTree [B, A] = .error .valueError) ∨
    (∃ s, buildTree [A, B] = .ok ⟨[A, B], .bytes s⟩ ∧
      buildTree [B, A] = .ok ⟨[B, A], .bytes s⟩) := by
  rcases hFA : fromHexChars A.2.2.data with erA | rA
  · have hAB : serializeEntries [A, B] = .error .valueError :=
      serializeEntries_err_of_bad _ A (by simp) erA hFA
    have hBA : serializeEntries [B, A] = .error .valueError :=
      serializeEntries_err_of_bad _ A (by simp) erA hFA
    have hA1 : serializeEntries [A] = .error .valueError :=
      serializeEntries_err_of_bad _ A (by simp) erA hFA
    left
    refine ⟨by rw [buildTree_pair A B, hA1]; rfl, ?_⟩
    rcases hFB : fromHexChars B.2.2.data with erB | rB
    · have hB1 : serializeEntries [B] = .error .valueError :=
        serializeEntries_err_of_bad _ B (by simp) erB hFB
      rw [buildTree_pair B A, hB1]
      rfl
    · obtain ⟨rB1, hB1⟩ := serializeEntries_ok_of_good [B] (by
        intro a ha
        rw [List.mem_singleton] at ha
        subst ha
        exact ⟨rB, hFB⟩)
      rw [buildTree_pair B A, hB1, except_bind_ok, hBA]
      rfl
  · rcases hFB : fromHexChars B.2.2.data with erB | rB
    · have hAB : serializeEntries [A, B] = .error .valueError :=
        serializeEntries_err_of_bad _ B (by simp) erB hFB
      have hB1 : serializeEntries [B] = .error .valueError :=
        serializeEntries_err_of_bad _ B (by simp) erB hFB
      obtain ⟨rA1, hA1⟩ := serializeEntries_ok_of_good [A] (by
        intro a ha
        rw [List.mem_singleton] at ha
        subst ha
        exact ⟨rA, hFA⟩)
      left
      refine ⟨by rw [buildTree_pair A B, hA1, except_bind_ok, hAB]; rfl, ?_⟩
      rw [buildTree_pair B A, hB1]
      rfl
    · have hgood : ∀ a ∈ [A, B], ∃ hb, fromHexChars a.2.2.data = .ok hb := by
        intro a ha
        rcases List.mem_cons.mp ha with rfl | ha'
        · exact ⟨rA, hFA⟩
        · rw [List.mem_singleton] at ha'
          subst ha'
          exact ⟨rB, hFB⟩
      obtain ⟨rA1, hA1⟩ := serializeEntries_ok_of_good [A]
        (fun a ha => hgood a (by simp at ha; simp [ha]))
      obtain ⟨rB1, hB1⟩ := serializeEntries_ok_of_good [B] (by
        intro a ha
        rw [List.mem_singleton] at ha
        subst ha
        exact ⟨rB, hFB⟩)
      obtain ⟨s, hAB⟩ := serializeEntries_ok_of_good [A, B] hgood
      have hBA : serializeEntries [B, A] = .ok s := by
        rw [serializeEntries_pair B A]
        exact hAB
      right
      refine ⟨s, ?_, ?_⟩
      · rw [buildTree_pair A B, hA1, except_bind_ok, hAB]
        rfl
      · rw [buildTree_pair B A, hB1, except_bind_ok, hBA]
        rfl

/-- C7: a `Tree` "built from" entries `[A, B]` through the constructor has
no digest at all — `Tree.__init__` stores the raw entries list as `content`
(line 48), so `hash()`/`serialize()` raise `TypeError` — while trees built
through `add_entry` (which recomputes `content`, line 52) yield digests and
stored bytes independent of the insertion order, as the sorted
`_serialize_entries` encoding (lines 54-62) intends. -/
theorem tree_order_independence :
    (∀ e : ExtLib,
      (treeInit [("100644", "a.txt", "aa"), ("100644", "b.txt", "bb")]).bind
        (fun t => objHash e (treeObj t)) = .error .typeError) ∧
    ∀ (e : ExtLib) (A B : TreeEntry),
      (buildTree [A, B]).bind (fun t => objHash e (treeObj t)) =
        (buildTree [B, A]).bind (fun t => objHash e (treeObj t)) ∧
      (buildTree [A, B]).bind (fun t => objSerialize e (treeObj t)) =
        (buildTree [B, A]).bind (fun t => objSerialize e (treeObj t)) := by
  constructor
  · intro e
    rfl
  · intro e A B
    rcases buildTree_pair_rel A B with ⟨h1, h2⟩ | ⟨s, h1, h2⟩
    · rw [h1, h2]
      exact ⟨rfl, rfl⟩
    · rw [h1, h2]
      exact ⟨rfl, rfl⟩

theorem storeEntries_cons (b : String) (files : List (String × Bytes))
    (rest : Store) :
    storeEntries ((b, files) :: rest) =
      files.map (fun fc => (b, fc.1, fc.2)) ++ storeEntries rest := by
  simp [storeEntries]


theorem mem_map_bucket (bn b f : String) (c : Bytes)
    (files : List (String × Bytes)) :
    (b, f, c) ∈ files.map (fun fc => (bn, fc.1, fc.2)) ↔
      b = bn ∧ (f, c) ∈ files := by
  constructor
  · intro h
    obtain ⟨fc, hfc, heq⟩ := List.mem_map.mp h
    obtain ⟨f1, c1⟩ := fc
    injection heq with h1 hrest
    injection hrest with h2 h3
    subst h1
    subst h2
    subst h3
    exact ⟨rfl, hfc⟩
  · rintro ⟨rfl, hfc⟩
    exact List.mem_map.mpr ⟨(f, c), hfc, rfl⟩

/-- Exactness of the sweep: an entry survives `gc` precisely when it was
stored before and — if its bucket is a two-character directory, the only
kind the sweep visits — its digest is among the index's values. -/
theorem gcRun_mem (idx : Index) (store : Store) (b f : String) (c : Bytes) :
    (b, f, c) ∈ storeEntries (gcRun idx store) ↔
      ((b, f, c) ∈ storeEntries store ∧
        (b.length = 2 → (b ++ f) ∈ idx.map Prod.snd)) := by
  induction store with
  | nil => simp [gcRun, storeEntries]
  | cons bk rest ih =>
    obtain ⟨bn, files⟩ := bk
    rw [gcRun]
    by_cases hb : bn.length ≠ 2
    · rw [if_pos hb, storeEntries_cons, storeEntries_cons]
      simp only [List.mem_append, mem_map_bucket, ih]
      constructor
      · rintro (⟨rfl, hfc⟩ | ⟨hmem, himp⟩)
        · exact ⟨Or.inl ⟨rfl, hfc⟩, fun hlen => absurd hlen hb⟩
        · exact ⟨Or.inr hmem, himp⟩
      · rintro ⟨⟨rfl, hfc⟩ | hmem, himp⟩
        · exact Or.inl ⟨rfl, hfc⟩
        · exact Or.inr ⟨hmem, himp⟩
    · push_neg at hb
      rw [if_neg (by omega)]
      by_cases hf : files.filter
          (fun fc => decide ((bn ++ fc.1) ∈ idx.map Prod.snd)) = []
      · rw [if_pos hf, storeEntries_cons]
        simp only [ih, List.mem_append, mem_map_bucket]
        constructor
        · rintro ⟨hmem, himp⟩
          exact ⟨Or.inr hmem, himp⟩
        · rintro ⟨⟨rfl, hfc⟩ | hmem, himp⟩
          · exfalso
            have hp : decide ((b ++ f) ∈ idx.map Prod.snd) = true :=
              decide_eq_true (himp hb)
            have hmemf : (f, c) ∈ files.filter
                (fun fc => decide ((b ++ fc.1) ∈ idx.map Prod.snd)) :=
              List.mem_filter.mpr ⟨hfc, hp⟩
            rw [hf] at hmemf
            cases hmemf
          · exact ⟨hmem, himp⟩
      · rw [if_neg hf, storeEntries_cons, storeEntries_cons]
        simp only [List.mem_append, mem_map_bucket, ih, List.mem_filter,
          decide_eq_true_eq]
        constructor
        · rintro (⟨rfl, hfc, hpred⟩ | ⟨hmem, himp⟩)
          · exact ⟨Or.inl ⟨rfl, hfc⟩, fun _ => hpred⟩
          · exact ⟨Or.inr hmem, himp⟩
        · rintro ⟨⟨rfl, hfc⟩ | hmem, himp⟩
          · exact Or.inl ⟨rfl, hfc, himp hb⟩
          · exact Or.inr ⟨hmem, himp⟩

/-- `gc` removes every bucket directory that its sweep leaves empty. -/
theorem gcRun_no_empty (idx : Index) (store : Store) :
    ∀ bk ∈ gcRun idx store, bk.1.length = 2 → bk.2 ≠ [] := by
  induction store with
  | nil => simp [gcRun]
  | cons bk0 rest ih =>
    obtain ⟨bn, files⟩ := bk0
    rw [gcRun]
    by_cases hb : bn.length ≠ 2
    · rw [if_pos hb]
      intro bk hbk
      rcases List.mem_cons.mp hbk with rfl | hbk'
      · intro hlen
        exact absurd hlen hb
      · exact ih bk hbk'
    · push_neg at hb
      rw [if_neg (by omega)]
      by_cases hf : files.filter
          (fun fc => decide ((bn ++ fc.1) ∈ idx.map Prod.snd)) = []
      · rw [if_pos hf]
        exact ih
      · rw [if_neg hf]
        intro bk hbk
        rcases List.mem_cons.mp hbk with rfl | hbk'
        · intro _
          exact hf
        · exact ih bk hbk'

/-- `store_object` on an object whose content really is bytes: hash, then
write at the digest-derived path only if nothing is there yet. -/
theorem storeObject_bytes (e : ExtLib) (store : Store) (t : String)
    (c : Bytes) :
    storeObject e store ⟨t, .bytes c⟩ =
      if objPathExists store (digestBucket (e.sha1 (frameBytes t c)))
          (digestFile (e.sha1 (frameBytes t c))) then
        .ok (store, e.sha1 (frameBytes t c))
      else
        .ok (bucketWrite (digestBucket (e.sha1 (frameBytes t c)))
          (digestFile (e.sha1 (frameBytes t c)))
          (e.compress (frameBytes t c)) store, e.sha1 (frameBytes t c)) := rfl

theorem objPathExists_iff (store : Store) (b f : String) :
    objPathExists store b f = true ↔ ∃ c, (b, f, c) ∈ storeEntries store := by
  unfold objPathExists
  rw [List.any_eq_true]
  constructor
  · rintro ⟨bk, hbk, hpred⟩
    rw [Bool.and_eq_true] at hpred
    obtain ⟨hb1, hany⟩ := hpred
    rw [List.any_eq_true] at hany
    obtain ⟨fc, hfc, hf1⟩ := hany
    have hb1' : bk.1 = b := of_decide_eq_true hb1
    have hf1' : fc.1 = f := of_decide_eq_true hf1
    refine ⟨fc.2, ?_⟩
    unfold storeEntries
    rw [List.mem_flatMap]
    refine ⟨bk, hbk, ?_⟩
    rw [List.mem_map]
    exact ⟨fc, hfc, by rw [hb1', hf1']⟩
  · rintro ⟨c, hmem⟩
    unfold storeEntries at hmem
    rw [List.mem_flatMap] at hmem
    obtain ⟨bk, hbk, hmm⟩ := hmem
    rw [List.mem_map] at hmm
    obtain ⟨fc, hfc, heq⟩ := hmm
    injection heq with h1 hrest
    injection hrest with h2 h3
    refine ⟨bk, hbk, ?_⟩
    rw [Bool.and_eq_true]
    refine ⟨decide_eq_true h1, ?_⟩
    rw [List.any_eq_true]
    exact ⟨fc, hfc, decide_eq_true h2⟩

theorem objPathExists_bucketWrite (store : Store) (b f : String) (c : Bytes) :
    objPathExists (bucketWrite b f c store) b f = true := by
  induction store with
  | nil => simp [bucketWrite, objPathExists]
  | cons bk rest ih =>
    obtain ⟨b', files⟩ := bk
    rw [bucketWrite]
    by_cases hbb : b' = b
    · rw [if_pos hbb]
      subst hbb
      simp [objPathExists]
    · rw [if_neg hbb]
      unfold objPathExists at ih ⊢
      rw [List.any_cons, ih, Bool.or_true]

theorem entryCount_ne_zero_of_exists (store : Store) (h : String)
    (hex : objPathExists store (digestBucket h) (digestFile h) = true) :
    entryCount store h ≠ 0 := by
  obtain ⟨c', hmem⟩ := (objPathExists_iff store _ _).mp hex
  have hfil : (digestBucket h, digestFile h, c') ∈
      (storeEntries store).filter
        (fun ent => ent.1 = digestBucket h && ent.2.1 = digestFile h) := by
    refine List.mem_filter.mpr ⟨hmem, ?_⟩
    simp
  unfold entryCount
  intro hlen
  rw [List.length_eq_zero] at hlen
  rw [hlen] at hfil
  cases hfil

theorem entryCount_zero_of_absent (store : Store) (h : String)
    (hex : objPathExists store (digestBucket h) (digestFile h) = false) :
    entryCount store h = 0 := by
  by_contra hne
  unfold entryCount at hne
  have hlen : 0 < ((storeEntries store).filter
      (fun ent => ent.1 = digestBucket h && ent.2.1 = digestFile h)).length :=
    Nat.pos_of_ne_zero hne
  obtain ⟨ent, hent⟩ := List.exists_mem_of_length_pos hlen
  obtain ⟨hmem, hpred⟩ := List.mem_filter.mp hent
  rw [Bool.and_eq_true] at hpred
  obtain ⟨h1, h2⟩ := hpred
  obtain ⟨eb, ef, ec⟩ := ent
  have h1' : eb = digestBucket h := of_decide_eq_true h1
  have h2' : ef = digestFile h := of_decide_eq_true h2
  subst h1'
  subst h2'
  have : objPathExists store (digestBucket h) (digestFile h) = true :=
    (objPathExists_iff store _ _).mpr ⟨ec, hmem⟩
  rw [hex] at this
  cases this

theorem entryCount_bucketWrite (store : Store) (c : Bytes) (h : String) :
    entryCount (bucketWrite (digestBucket h) (digestFile h) c store) h =
      entryCount store h + 1 := by
  induction store with
  | nil =>
    simp [entryCount, bucketWrite, storeEntries]
  | cons bk rest ih =>
    obtain ⟨b', files⟩ := bk
    rw [bucketWrite]
    by_cases hbb : b' = digestBucket h
    · rw [if_pos hbb]
      subst hbb
      unfold entryCount at ih ⊢
      rw [storeEntries_cons, storeEntries_cons, List.map_append,
        List.filter_append, List.filter_append, List.filter_append,
        List.length_append, List.length_append, List.length_append]
      simp only [List.map_cons, List.map_nil, List.filter_cons]
      simp
      omega
    · rw [if_neg hbb]
      unfold entryCount at ih ⊢
      rw [storeEntries_cons, storeEntries_cons, List.filter_append,
        List.filter_append, List.length_append, List.length_append, ih]
      omega

/-- C6: `store_object` is idempotent: storing the same `(type, content)`
twice returns the same digest both times, the second call changes nothing on
disk (the write is skipped because the entry already exists), and exactly
one stored entry sits at the digest's path (when none was there before). -/
theorem store_object_idempotent (e : ExtLib) (store : Store) (t : String)
    (c : Bytes) (s1 : Store) (h1 : String)
    (hfirst : storeObject e store ⟨t, .bytes c⟩ = .ok (s1, h1)) :
    storeObject e s1 ⟨t, .bytes c⟩ = .ok (s1, h1) ∧
      entryCount s1 h1 =
        (if entryCount store h1 = 0 then 1 else entryCount store h1) := by
  rw [storeObject_bytes] at hfirst
  by_cases hex : objPathExists store (digestBucket (e.sha1 (frameBytes t c)))
      (digestFile (e.sha1 (frameBytes t c))) = true
  · rw [if_pos hex] at hfirst
    injection hfirst with hp
    injection hp with hs hh
    subst hs
    subst hh
    have hnz : entryCount store (e.sha1 (frameBytes t c)) ≠ 0 :=
      entryCount_ne_zero_of_exists store _ hex
    refine ⟨?_, ?_⟩
    · rw [storeObject_bytes, if_pos hex]
    · rw [if_neg hnz]
  · rw [if_neg hex] at hfirst
    injection hfirst with hp
    injection hp with hs hh
    subst hs
    subst hh
    have hex' : objPathExists store (digestBucket (e.sha1 (frameBytes t c)))
        (digestFile (e.sha1 (frameBytes t c))) = false :=
      Bool.not_eq_true _ ▸ eq_false_of_ne_true hex
    have h0 : entryCount store (e.sha1 (frameBytes t c)) = 0 :=
      entryCount_zero_of_absent store _ hex'
    refine ⟨?_, ?_⟩
    · rw [storeObject_bytes,
        if_pos (objPathExists_bucketWrite store _ _ (e.compress (frameBytes t c)))]
    · rw [h0, if_pos rfl]
      rw [entryCount_bucketWrite store (e.compress (frameBytes t c)) _, h0]

theorem store_object_idempotent_witness :
    storeObject extIdC
        [("aa", [("aaaaaaaaaaaaaaaaaaaaaaaaaaaaaaaaaaaaaa",
          [98, 108, 111, 98, 32, 49, 0, 7])])]
        ⟨"blob", .bytes [7]⟩ =
      .ok ([("aa", [("aaaaaaaaaaaaaaaaaaaaaaaaaaaaaaaaaaaaaa",
          [98, 108, 111, 98, 32, 49, 0, 7])])],
        "aaaaaaaaaaaaaaaaaaaaaaaaaaaaaaaaaaaaaaaa") ∧
      entryCount
          [("aa", [("aaaaaaaaaaaaaaaaaaaaaaaaaaaaaaaaaaaaaa",
            [98, 108, 111, 98, 32, 49, 0, 7])])]
          "aaaaaaaaaaaaaaaaaaaaaaaaaaaaaaaaaaaaaaaa" =
        (if entryCount ([] : Store) "aaaaaaaaaaaaaaaaaaaaaaaaaaaaaaaaaaaaaaaa" = 0
          then 1
          else entryCount ([] : Store) "aaaaaaaaaaaaaaaaaaaaaaaaaaaaaaaaaaaaaaaa") :=
  store_object_idempotent extIdC [] "blob" [7] _ _ rfl

/-- C2 amended: `gc` deletes exactly the stored entries (in the
two-character bucket directories it sweeps) whose digest is not among the
index's values, keeps every entry whose digest is an index value, and
removes every bucket left empty; in the d1/d2/d3 scenario only the
referenced blob survives.  (No clause about a "just built" root Tree can
hold: `create_tree_from_index` raises before storing one — see the
counterexample — but a stored tree object is removed like any other
unreferenced entry, which is what the first conjunct says for its path.) -/
theorem gc_collect_spec :
    (∀ (idx : Index) (store : Store) (b f : String) (c : Bytes),
        (b, f, c) ∈ storeEntries (gcRun idx store) ↔
          ((b, f, c) ∈ storeEntries store ∧
            (b.length = 2 → (b ++ f) ∈ idx.map Prod.snd))) ∧
      (∀ (idx : Index) (store : Store), ∀ bk ∈ gcRun idx store,
        bk.1.length = 2 → bk.2 ≠ []) ∧
      (∀ c1 c2 c3 : Bytes,
        gcRun [("f.txt", "aa01")]
            [("aa", [("01", c1)]), ("bb", [("02", c2)]), ("cc", [("03", c3)])] =
          [("aa", [("01", c1)])] ∧
        digestExists (gcRun [("f.txt", "aa01")]
            [("aa", [("01", c1)]), ("bb", [("02", c2)]), ("cc", [("03", c3)])])
          "aa01" = true ∧
        digestExists (gcRun [("f.txt", "aa01")]
            [("aa", [("01", c1)]), ("bb", [("02", c2)]), ("cc", [("03", c3)])])
          "bb02" = false ∧
        digestExists (gcRun [("f.txt", "aa01")]
            [("aa", [("01", c1)]), ("bb", [("02", c2)]), ("cc", [("03", c3)])])
          "cc03" = false) :=
  ⟨gcRun_mem, gcRun_no_empty, fun _ _ _ => ⟨rfl, rfl, rfl, rfl⟩⟩

theorem gc_collect_spec_witness :
    gcRun [("f.txt", "aa01")]
        [("aa", [("01", [1])]), ("bb", [("02", [2])]), ("cc", [("03", [3])])] =
      [("aa", [("01", [1])])] ∧
    digestExists (gcRun [("f.txt", "aa01")]
        [("aa", [("01", [1])]), ("bb", [("02", [2])]), ("cc", [("03", [3])])])
      "aa01" = true ∧
    digestExists (gcRun [("f.txt", "aa01")]
        [("aa", [("01", [1])]), ("bb", [("02", [2])]), ("cc", [("03", [3])])])
      "bb02" = false ∧
    digestExists (gcRun [("f.txt", "aa01")]
        [("aa", [("01", [1])]), ("bb", [("02", [2])]), ("cc", [("03", [3])])])
      "cc03" = false :=
  gc_collect_spec.2.2 [1] [2] [3]

/-- C9: `load_index` returns an empty mapping when the index file does not
exist, returns an empty mapping rather than raising when its content fails
to parse with any error (the bare `except:` of lines 190-193), and otherwise
returns the persisted mapping. -/
theorem load_index_tolerant :
    (∀ parse : String → Except PyError Index, loadIndex parse none = []) ∧
      (∀ (parse : String → Except PyError Index) (text : String)
        (er : PyError), parse text = .error er →
          loadIndex parse (some text) = []) ∧
      (∀ (parse : String → Except PyError Index) (text : String) (m : Index),
        parse text = .ok m → loadIndex parse (some text) = m) := by
  refine ⟨fun _ => rfl, ?_, ?_⟩
  · intro parse text er h
    simp [loadIndex, h]
  · intro parse text m h
    simp [loadIndex, h]

theorem load_index_tolerant_witness :
    loadIndex (fun _ => .error .valueError) (some "garbage") = [] ∧
      loadIndex (fun _ => .ok [("a.txt", "aa")]) (some "x") = [("a.txt", "aa")] :=
  ⟨load_index_tolerant.2.1 _ "garbage" .valueError rfl,
    load_index_tolerant.2.2 _ "x" _ rfl⟩

theorem storeEntries_bucket (store : Store) (b f : String) (c : Bytes)
    (hmem : (b, f, c) ∈ storeEntries store) :
    ∃ files, (b, files) ∈ store ∧ (f, c) ∈ files := by
  unfold storeEntries at hmem
  rw [List.mem_flatMap] at hmem
  obtain ⟨bk, hbk, hmm⟩ := hmem
  obtain ⟨bn, files⟩ := bk
  rw [mem_map_bucket] at hmm
  obtain ⟨rfl, hfc⟩ := hmm
  exact ⟨files, hbk, hfc⟩

theorem bucketWrite_wf (store : Store) (b f : String) (c : Bytes)
    (hwf : ∀ bk ∈ store, bk.1.length = 2) (hb : b.length = 2) :
    ∀ bk ∈ bucketWrite b f c store, bk.1.length = 2 := by
  induction store with
  | nil =>
    intro bk hbk
    rw [bucketWrite] at hbk
    rcases List.mem_singleton.mp hbk with rfl
    exact hb
  | cons bk0 rest ih =>
    obtain ⟨b', files⟩ := bk0
    intro bk hbk
    rw [bucketWrite] at hbk
    by_cases hbb : b' = b
    · rw [if_pos hbb] at hbk
      rcases List.mem_cons.mp hbk with rfl | hbk'
      · show b'.length = 2
        rw [hbb]
        exact hb
      · exact hwf bk (by simp [hbk'])
    · rw [if_neg hbb] at hbk
      rcases List.mem_cons.mp hbk with rfl | hbk'
      · exact hwf (b', files) (by simp)
      · exact ih (fun x hx => hwf x (by simp [hx])) bk hbk'

theorem digestBucket_length (h : String) (hl : 2 ≤ h.length) :
    (digestBucket h).length = 2 := by
  unfold digestBucket
  show (h.data.take 2).length = 2
  rw [List.length_take]
  have hd : h.length = h.data.length := rfl
  omega

/-- An entry of the store after `gc` whose bucket names are all
two-character directories has its digest among the index values. -/
theorem gc_after_wf (idx : Index) (s1 : Store)
    (hwf1 : ∀ bk ∈ s1, bk.1.length = 2) (b f : String) (c : Bytes)
    (hmem : (b, f, c) ∈ storeEntries (gcRun idx s1)) :
    (b ++ f) ∈ idx.map Prod.snd := by
  obtain ⟨hm, himp⟩ := (gcRun_mem idx s1 b f c).mp hmem
  obtain ⟨files, hbk, _⟩ := storeEntries_bucket s1 b f c hm
  exact himp (hwf1 (b, files) hbk)

theorem addDirStep_spec (e : ExtLib) (hsha : ∀ x, (e.sha1 x).length = 40)
    (s0 : Store) (i0 : Index) (pc : String × Bytes)
    (hwf : ∀ bk ∈ s0, bk.1.length = 2) :
    ∃ s2 i2, addDirStep e (s0, i0) pc = .ok (s2, i2) ∧
      (∀ bk ∈ s2, bk.1.length = 2) := by
  unfold addDirStep
  by_cases hig : ignoredPath pc.1 = true
  · rw [if_pos hig]
    exact ⟨s0, i0, rfl, hwf⟩
  · rw [if_neg hig, storeObject_bytes]
    by_cases hex : objPathExists s0
        (digestBucket (e.sha1 (frameBytes "blob" pc.2)))
        (digestFile (e.sha1 (frameBytes "blob" pc.2))) = true
    · rw [if_pos hex]
      exact ⟨s0, dictSet pc.1 (e.sha1 (frameBytes "blob" pc.2)) i0, rfl, hwf⟩
    · rw [if_neg hex]
      refine ⟨_, _, rfl, ?_⟩
      exact bucketWrite_wf s0 _ _ _ hwf
        (digestBucket_length _ (by rw [hsha]; omega))

theorem addDirLoop_wf (e : ExtLib) (hsha : ∀ x, (e.sha1 x).length = 40) :
    ∀ (files : List (String × Bytes)) (s0 : Store) (i0 : Index),
      (∀ bk ∈ s0, bk.1.length = 2) →
      ∃ s1 i1, files.foldlM (addDirStep e) (s0, i0) = .ok (s1, i1) ∧
        (∀ bk ∈ s1, bk.1.length = 2) := by
  intro files
  induction files with
  | nil =>
    intro s0 i0 hwf
    exact ⟨s0, i0, rfl, hwf⟩
  | cons pc rest ih =>
    intro s0 i0 hwf
    obtain ⟨s2, i2, hstep, hwf2⟩ := addDirStep_spec e hsha s0 i0 pc hwf
    rw [List.foldlM_cons, hstep, except_ok_bind]
    exact ih s2 i2 hwf2

/-- C10: after every successful `add_file` or `add_directory` on a
well-formed store (all bucket directories two-character, as `store_object`
creates them from 40-hex-character sha1 digests), every object file that
remains in the store has its digest among the values of the saved staging
index: both operations run `gc` unconditionally after saving the index. -/
theorem add_ops_reachability (e : ExtLib)
    (hsha : ∀ x, (e.sha1 x).length = 40)
    (store : Store) (index : Index)
    (hwf : ∀ bk ∈ store, bk.1.length = 2) :
    (∀ (path : String) (content : Bytes) (s' : Store) (idx' : Index),
      addFile e store index path content = .ok (s', idx') →
      ∀ b f c, (b, f, c) ∈ storeEntries s' → (b ++ f) ∈ idx'.map Prod.snd) ∧
    (∀ (files : List (String × Bytes)) (s' : Store) (idx' : Index),
      addDirectory e store index files = .ok (s', idx') →
      ∀ b f c, (b, f, c) ∈ storeEntries s' →
        (b ++ f) ∈ idx'.map Prod.snd) := by
  constructor
  · intro path content s' idx' hadd b f c hmem
    unfold addFile at hadd
    rw [storeObject_bytes] at hadd
    by_cases hex : objPathExists store
        (digestBucket (e.sha1 (frameBytes "blob" content)))
        (digestFile (e.sha1 (frameBytes "blob" content))) = true
    · rw [if_pos hex, except_ok_bind] at hadd
      injection hadd with hp
      injection hp with hs hi
      subst hs
      subst hi
      exact gc_after_wf _ _ hwf b f c hmem
    · rw [if_neg hex, except_ok_bind] at hadd
      injection hadd with hp
      injection hp with hs hi
      subst hs
      subst hi
      refine gc_after_wf _ _ ?_ b f c hmem
      exact bucketWrite_wf store _ _ _ hwf
        (digestBucket_length _ (by rw [hsha]; omega))
  · intro files s' idx' hadd b f c hmem
    unfold addDirectory at hadd
    obtain ⟨s1, i1, hfold, hwf1⟩ := addDirLoop_wf e hsha files store index hwf
    rw [hfold, except_ok_bind] at hadd
    injection hadd with hp
    injection hp with hs hi
    subst hs
    subst hi
    exact gc_after_wf _ _ hwf1 b f c hmem

theorem add_ops_reachability_witness :
    (∀ (path : String) (content : Bytes) (s' : Store) (idx' : Index),
      addFile extIdC [] [] path content = .ok (s', idx') →
      ∀ b f c, (b, f, c) ∈ storeEntries s' → (b ++ f) ∈ idx'.map Prod.snd) ∧
    (∀ (files : List (String × Bytes)) (s' : Store) (idx' : Index),
      addDirectory extIdC [] [] files = .ok (s', idx') →
      ∀ b f c, (b, f, c) ∈ storeEntries s' →
        (b ++ f) ∈ idx'.map Prod.snd) :=
  add_ops_reachability extIdC (fun _ => rfl) [] [] (by simp)
